import Mathlib

/-!
Shallow embedding of the task-state machine and retry controller of
`src/willie/loop.py` (the hardened loop; `ralph.py` is the earlier draft of the
same functions).  Pure functions are translated directly; the stateful parts
(the tasks.jsonl store, the agent subprocess, the main loop) are modelled by
explicit state passing: the store is a `List Task` snapshot, the agent is an
oracle indexed by the invocation counter, and the unbounded `while True` loop
is run for an explicit number of poll cycles (fuel).  File-system, git and
logging side effects carry no task-store state and are dropped.
-/

namespace Willie

/-- Config constants from loop.py. -/
def MAX_ITERATIONS : Nat := 20

/-- Exponential backoff delays for API errors (seconds), from loop.py. -/
def API_RETRY_DELAYS : List Nat := [5, 15, 30, 60]

/-- Fixed cooldown for rate limits (seconds), from loop.py. -/
def RATE_LIMIT_WAIT : Nat := 300

/-- Error-type string constants of class ClaudeError in loop.py. -/
def NONE : String := "none"

/-- ClaudeError.API_ERROR. -/
def API_ERROR : String := "api_error"

/-- ClaudeError.RATE_LIMIT. -/
def RATE_LIMIT : String := "rate_limit"

/-- ClaudeError.TOKEN_LIMIT. -/
def TOKEN_LIMIT : String := "token_limit"

/-- ClaudeError.TIMEOUT. -/
def TIMEOUT : String := "timeout"

/-- ClaudeError.UNKNOWN. -/
def UNKNOWN : String := "unknown"

/-- The closed status enumeration of class TaskStatus in loop.py
(`pending | active | complete | split`). -/
inductive Status
  | pending
  | active
  | complete
  | split
deriving DecidableEq, Repr

/-- String form of a status, as stored in tasks.jsonl. -/
def Status.toStr : Status → String
  | .pending => "pending"
  | .active => "active"
  | .complete => "complete"
  | .split => "split"

/-- TaskStatus.VALID from loop.py. -/
def VALID_STATUSES : List String := ["pending", "active", "complete", "split"]

/-- A validated task record, per the data model of loop.py: required fields
id, title, status; optional commit and completed (the latter only appears on
archived records). -/
structure Task where
  id : String
  title : String
  status : Status
  commit : Option String
  completed : Option String
deriving DecidableEq, Repr

/-- Python `s.startswith(pre)`. -/
def pyStartsWith (s pre : String) : Bool := pre.data.isPrefixOf s.data

/-- Python `s.count('.')` (single-character needle). -/
def countDots (s : String) : Nat := s.data.count '.'

/-- get_children from loop.py: direct children of a task
(`A` has children `A.1`, `A.2`, not `A.1.1`): id starts with `parent_id + '.'`
and has exactly one more dot than the parent. -/
def get_children (tasks : List Task) (parentId : String) : List Task :=
  tasks.filter fun t =>
    pyStartsWith t.id (parentId ++ ".") && (countDots t.id == countDots parentId + 1)

/-- The readiness test of the third rule of get_next_task in loop.py:
`children and all(c.get('status') == COMPLETE for c in children)`. -/
def splitChildrenDone (tasks : List Task) (t : Task) : Bool :=
  let cs := get_children tasks t.id
  !cs.isEmpty && cs.all fun c => decide (c.status = Status.complete)

/-- get_next_task from loop.py: three sequential scans of the task list, first
match wins — any active task (mode work), else first pending task (mode work),
else first split task whose direct children are nonempty and all complete
(mode verify), else (None, None). -/
def get_next_task (tasks : List Task) : Option Task × Option String :=
  match tasks.find? (fun t => decide (t.status = Status.active)) with
  | some t => (some t, some "work")
  | none =>
    match tasks.find? (fun t => decide (t.status = Status.pending)) with
    | some t => (some t, some "work")
    | none =>
      match tasks.find? (fun t => decide (t.status = Status.split) && splitChildrenDone tasks t) with
      | some t => (some t, some "verify")
      | none => (none, none)

/-- update_task_status from loop.py: set the status of the first record with
the given id (python mutates the first match in place, then rewrites the
file). -/
def update_task_status : List Task → String → Status → List Task
  | [], _, _ => []
  | t :: ts, taskId, st =>
    if t.id = taskId then ⟨t.id, t.title, st, t.commit, t.completed⟩ :: ts
    else t :: update_task_status ts taskId st

/-- get_task_by_id from loop.py: first record with the given id. -/
def get_task_by_id (tasks : List Task) (taskId : String) : Option Task :=
  tasks.find? fun t => decide (t.id = taskId)

/-- get_all_descendants from loop.py: every record whose id starts with
`parent_id + '.'`, at any depth. -/
def get_all_descendants (tasks : List Task) (parentId : String) : List Task :=
  tasks.filter fun t => pyStartsWith t.id (parentId ++ ".")

/-- is_root_task from loop.py: `'.' not in task_id`. -/
def is_root_task (taskId : String) : Bool := !taskId.data.contains '.'

/-- The archive record built in archive_task_tree:
`{**t, 'completed': date.today().isoformat(), 'commit': commit_hash}`. -/
def stampDone (t : Task) (today commitHash : String) : Task :=
  ⟨t.id, t.title, t.status, some commitHash, some today⟩

/-- archive_task_tree from loop.py.  Returns the new live store and the list
of records appended (in order) to tasks-done.jsonl.  If the id is absent the
store is returned unchanged and nothing is appended; otherwise the found task
and all its descendants are stamped with today's date and the commit hash and
appended, and every record whose id is among theirs is removed from the live
store. -/
def archive_task_tree (tasks : List Task) (taskId : String) (commitHash today : String) :
    List Task × List Task :=
  match get_task_by_id tasks taskId with
  | none => (tasks, [])
  | some task =>
    let toArchive := task :: get_all_descendants tasks taskId
    let toArchiveIds : List String := toArchive.map fun t => t.id
    let archived := toArchive.map fun t => stampDone t today commitHash
    let remaining := tasks.filter fun t => !decide (t.id ∈ toArchiveIds)
    (remaining, archived)

/-- A task record with the commit field set, as in
`current['commit'] = commit_hash` in main. -/
def withCommit (t : Task) (h : String) : Task :=
  ⟨t.id, t.title, t.status, some h, t.completed⟩

/-- The non-root completion write in main (step 5): the record object found by
get_task_by_id — the first match — gains the commit hash in place, and the
whole list is written back. -/
def set_commit : List Task → String → String → List Task
  | [], _, _ => []
  | t :: ts, taskId, h =>
    if t.id = taskId then withCommit t h :: ts
    else t :: set_commit ts taskId h

/-- Step 5 of main in loop.py (FINALIZING), restricted to its task-store
effect: re-read store, find the task; if complete, squash-merge (git only; the
resulting short hash is the `commitHash` argument) and then archive the whole
subtree when the id is a root, else just persist the commit hash on the
record; if split, or still active, or missing, the store is untouched (only
git branch cleanup happens). -/
def finalize (tasks : List Task) (taskId : String) (commitHash today : String) : List Task :=
  match get_task_by_id tasks taskId with
  | some cur =>
    if cur.status = Status.complete then
      if is_root_task taskId then (archive_task_tree tasks taskId commitHash today).1
      else set_commit tasks taskId commitHash
    else tasks
  | none => tasks

/-- Result triple of run_claude in loop.py: (exit code, error type, error
message). -/
structure RunResult where
  exitCode : Int
  errorType : String
  errorMsg : String
deriving DecidableEq, Repr

/-- The loop body of run_claude_with_retry in loop.py, instrumented with the
number of run_claude invocations made and the total seconds slept.  One step
per schedule entry of `API_RETRY_DELAYS + [0]`; `runs i` is the result of the
i-th run_claude invocation.  exit 0 returns at once; rate_limit sleeps the
fixed cooldown and retries (consuming a schedule slot); token_limit and
timeout return at once; api_error and unknown retry with the backoff delay
while one remains, else return.  When the schedule is exhausted the last
result is returned (the trailing `return` of the python function). -/
def retryGo (runs : Nat → RunResult) :
    List Nat → Nat → Nat → RunResult → RunResult × Nat × Nat
  | [], calls, slept, last => (last, calls, slept)
  | delay :: rest, calls, slept, _ =>
    let r := runs calls
    if r.exitCode = 0 then (r, calls + 1, slept)
    else if r.errorType = RATE_LIMIT then
      retryGo runs rest (calls + 1) (slept + RATE_LIMIT_WAIT) r
    else if r.errorType = TOKEN_LIMIT then (r, calls + 1, slept)
    else if r.errorType = API_ERROR then
      if delay > 0 then retryGo runs rest (calls + 1) (slept + delay) r
      else (r, calls + 1, slept)
    else if r.errorType = TIMEOUT then (r, calls + 1, slept)
    else
      if delay > 0 then retryGo runs rest (calls + 1) (slept + delay) r
      else (r, calls + 1, slept)

/-- run_claude_with_retry from loop.py, over an oracle giving the result of
each run_claude invocation.  Returns (returned result, invocations made,
total seconds slept).  The initial accumulator is never the returned value
because the schedule `API_RETRY_DELAYS + [0]` is nonempty. -/
def run_claude_with_retry (runs : Nat → RunResult) : RunResult × Nat × Nat :=
  retryGo runs (API_RETRY_DELAYS ++ [0]) 0 0 ⟨1, UNKNOWN, ""⟩

/-- Outcome of one run_claude_with_retry call inside main, as seen by the
controller: the exit code and error type it returns, and the full content the
tasks.jsonl store holds once the call is over (the agent may rewrite it). -/
structure AgentOutcome where
  exitCode : Int
  errorType : String
  tasksAfter : List Task
deriving DecidableEq, Repr

/-- Step 4 of main in loop.py (the per-task iteration loop), restricted to its
task-store and invocation behaviour.  `calls` counts run_claude_with_retry
calls so far; `oracle calls` is the outcome of the next one.  Fuel is
MAX_ITERATIONS.  A nonzero exit with token_limit breaks the loop; any other
nonzero exit goes to the next iteration; on exit 0 the store is re-read and
the loop ends when the task is missing, complete or split.  Returns the store
content and the invocation counter when the loop ends. -/
def workLoop (oracle : Nat → AgentOutcome) (taskId : String) :
    Nat → List Task → Nat → List Task × Nat
  | 0, file, calls => (file, calls)
  | fuel + 1, _, calls =>
    let o := oracle calls
    let file := o.tasksAfter
    if o.exitCode ≠ 0 then
      if o.errorType = TOKEN_LIMIT then (file, calls + 1)
      else workLoop oracle taskId fuel file (calls + 1)
    else
      match get_task_by_id file taskId with
      | none => (file, calls + 1)
      | some cur =>
        if cur.status = Status.complete then (file, calls + 1)
        else if cur.status = Status.split then (file, calls + 1)
        else workLoop oracle taskId fuel file (calls + 1)

/-- The `while True` loop of main in loop.py, run for `fuel` poll cycles, with
no stop sentinel, no console, no inbox input and a project that needs no
bootstrap, in daemon mode (so an empty poll only sleeps and re-polls).  Each
cycle: read the store, select a task; if one is found, claim it (status
active), run the iteration loop, then finalize; `commitHash` stands for the
short hash git returns on a squash merge and `today` for date.today(). -/
def mainLoop (oracle : Nat → AgentOutcome) (commitHash today : String) :
    Nat → List Task → Nat → List Task × Nat
  | 0, file, calls => (file, calls)
  | fuel + 1, file, calls =>
    match get_next_task file with
    | (some task, _) =>
      let afterClaim := update_task_status file task.id Status.active
      let wl := workLoop oracle task.id MAX_ITERATIONS afterClaim calls
      let afterFin := finalize wl.1 task.id commitHash today
      mainLoop oracle commitHash today fuel afterFin wl.2
    | (none, _) => mainLoop oracle commitHash today fuel file calls

/-- Python substring containment `needle in hay` on character lists
(true for the empty needle). -/
def listContainsSub (needle : List Char) : List Char → Bool
  | [] => needle.isEmpty
  | c :: t => needle.isPrefixOf (c :: t) || listContainsSub needle t

/-- Python `needle in hay` for strings. -/
def pyIn (needle hay : String) : Bool := listContainsSub needle.data hay.data

/-- Python `s.lower()` (the needles involved are ASCII, where Char.toLower
agrees with python). -/
def pyLower (s : String) : String := ⟨s.data.map Char.toLower⟩

/-- Python whitespace, as stripped by `str.strip()`. -/
def pySpace (c : Char) : Bool :=
  c = ' ' || c = '\t' || c = '\n' || c = '\r' || c = '\x0b' || c = '\x0c'

/-- Python `not s.strip()`: every character is whitespace. -/
def pyStripEmpty (s : String) : Bool := s.data.all pySpace

/-- The first guard of detect_error_type:
`'rate limit' in stderr_lower or '429' in stderr`. -/
def rlMatch (stderr : String) : Bool :=
  pyIn "rate limit" (pyLower stderr) || pyIn "429" stderr

/-- The second guard of detect_error_type:
`'insufficient' in stderr_lower or 'credit' in stderr_lower or 'quota' in stderr_lower`. -/
def creditMatch (stderr : String) : Bool :=
  pyIn "insufficient" (pyLower stderr) || pyIn "credit" (pyLower stderr) ||
    pyIn "quota" (pyLower stderr)

/-- The third guard of detect_error_type:
`'500' in stderr or 'internal server error' in stderr_lower or 'api_error' in stderr_lower`. -/
def apiMatch (stderr : String) : Bool :=
  pyIn "500" stderr || pyIn "internal server error" (pyLower stderr) ||
    pyIn "api_error" (pyLower stderr)

/-- The fourth guard of detect_error_type: `'timeout' in stderr_lower`. -/
def timeoutMatch (stderr : String) : Bool := pyIn "timeout" (pyLower stderr)

/-- detect_error_type from loop.py: empty-or-whitespace text is none, then the
four keyword guards in order, else unknown. -/
def detect_error_type (stderr : String) : String × String :=
  if pyStripEmpty stderr then (NONE, "")
  else if rlMatch stderr then (RATE_LIMIT, stderr)
  else if creditMatch stderr then (TOKEN_LIMIT, stderr)
  else if apiMatch stderr then (API_ERROR, stderr)
  else if timeoutMatch stderr then (TIMEOUT, stderr)
  else (UNKNOWN, stderr)

/-- A JSON value as produced by python json.loads; objects keep their fields
as an ordered association list. -/
inductive JValue
  | jnull
  | jbool (b : Bool)
  | jnum (n : Int)
  | jstr (s : String)
  | jarr (xs : List JValue)
  | jobj (fields : List (String × JValue))

/-- Python exceptions that the store code can raise. -/
inductive PyErr
  | valueError
  | attributeError
  | typeError
deriving DecidableEq, Repr

/-- Keys of a JSON object, `task.keys()`. -/
def jkeys (fs : List (String × JValue)) : List String := fs.map fun p => p.1

/-- Python dict access `d[k]` on the parsed object: with duplicate keys in the
JSON text, json.loads keeps the last occurrence, so lookup is last-wins. -/
def jlookup (fs : List (String × JValue)) (k : String) : Option JValue :=
  fs.foldl (fun acc p => if p.1 = k then some p.2 else acc) none

/-- Python hashability of a json.loads value: lists and dicts are unhashable,
everything else (None, bool, number, string) is hashable. -/
def jhashable : JValue → Bool
  | .jarr _ => false
  | .jobj _ => false
  | _ => true

/-- The check `task['status'] not in TaskStatus.VALID`: an unhashable status
value raises TypeError; a hashable non-member raises ValueError; a valid
status string passes. -/
def statusCheck (sv : JValue) : Except PyErr Unit :=
  if !jhashable sv then .error .typeError
  else
    match sv with
    | .jstr s => if decide (s ∈ VALID_STATUSES) then .ok () else .error .valueError
    | _ => .error .valueError

/-- validate_task from loop.py.  On a non-object value, `task.keys()` raises
AttributeError.  On an object: a missing required field (id, title, status)
raises ValueError; then the status value is checked against the closed
enumeration. -/
def validate_task (v : JValue) : Except PyErr Unit :=
  match v with
  | .jobj fields =>
    if !(decide ("id" ∈ jkeys fields) && decide ("title" ∈ jkeys fields) &&
        decide ("status" ∈ jkeys fields)) then
      .error .valueError
    else
      match jlookup fields "status" with
      | none => .error .valueError
      | some sv => statusCheck sv
  | _ => .error .attributeError

/-- One physical line of tasks.jsonl, after json.loads: blank (skipped before
parsing), malformed (JSONDecodeError), or a parsed value. -/
inductive Line
  | blank
  | malformed
  | value (v : JValue)

/-- The line loop of read_tasks in loop.py.  Blank lines are skipped;
JSONDecodeError and ValueError are caught (a warning is logged and the line is
skipped); any other exception from validate_task propagates and aborts the
read.  Valid records accumulate in file order. -/
def read_tasks_go : List Line → List JValue → Except PyErr (List JValue)
  | [], acc => .ok acc
  | ln :: rest, acc =>
    match ln with
    | .blank => read_tasks_go rest acc
    | .malformed => read_tasks_go rest acc
    | .value v =>
      match validate_task v with
      | .ok _ => read_tasks_go rest (acc ++ [v])
      | .error .valueError => read_tasks_go rest acc
      | .error e => .error e

/-- read_tasks from loop.py, over the parsed file content. -/
def read_tasks (lines : List Line) : Except PyErr (List JValue) :=
  read_tasks_go lines []

/-- The JSON object json.dumps writes for a task record in write_tasks:
required fields first, then commit and completed when present. -/
def encodeTask (t : Task) : JValue :=
  .jobj ([("id", JValue.jstr t.id), ("title", JValue.jstr t.title),
      ("status", JValue.jstr t.status.toStr)] ++
    (match t.commit with
     | some c => [("commit", JValue.jstr c)]
     | none => []) ++
    (match t.completed with
     | some d => [("completed", JValue.jstr d)]
     | none => []))

/-- write_tasks from loop.py: one json.dumps line per task, in sequence order
(the lock and atomic rename carry no data content).  json.dumps output always
parses back, by the stdlib round-trip, to the same value. -/
def write_tasks (tasks : List Task) : List Line :=
  tasks.map fun t => Line.value (encodeTask t)

/-- Inverse reading of an encoded record, to state that no field is lost:
extract id, title, status, and the optional commit and completed fields. -/
def strToStatus (s : String) : Option Status :=
  if s = "pending" then some .pending
  else if s = "active" then some .active
  else if s = "complete" then some .complete
  else if s = "split" then some .split
  else none

/-- Decode a JSON object back into a task record; none when a required field
is missing or ill-typed. -/
def decodeTask (v : JValue) : Option Task :=
  match v with
  | .jobj fields =>
    match jlookup fields "id", jlookup fields "title", jlookup fields "status" with
    | some (.jstr i), some (.jstr ti), some (.jstr st) =>
      match strToStatus st with
      | some s =>
        some ⟨i, ti, s,
          (match jlookup fields "commit" with
           | some (.jstr c) => some c
           | _ => none),
          (match jlookup fields "completed" with
           | some (.jstr d) => some d
           | _ => none)⟩
      | none => none
    | _, _, _ => none
  | _ => none

/-- Store used to exercise main's response to token_limit: two pending root
tasks. -/
def c2Tasks : List Task :=
  [⟨"1", "a", .pending, none, none⟩, ⟨"2", "b", .pending, none, none⟩]

/-- Oracle where every agent call exits 1 with error type token_limit and
leaves the store exactly as the controller wrote it on claim (task 1
active). -/
def c2Oracle : Nat → AgentOutcome :=
  fun _ => ⟨1, TOKEN_LIMIT,
    [⟨"1", "a", .active, none, none⟩, ⟨"2", "b", .pending, none, none⟩]⟩

/-- Selector input mixing a pending and an active task. -/
def w3a : List Task :=
  [⟨"1", "a", .pending, none, none⟩, ⟨"2", "b", .active, none, none⟩]

/-- Selector input with no active task and one pending task. -/
def w3b : List Task :=
  [⟨"2", "b", .complete, none, none⟩, ⟨"1", "a", .pending, none, none⟩]

/-- Selector input with only a ready split task. -/
def w3c : List Task :=
  [⟨"1", "a", .split, none, none⟩, ⟨"1.1", "c", .complete, none, none⟩]

/-- Selector input with no selectable task. -/
def w3d : List Task := [⟨"1", "a", .complete, none, none⟩]

/-- A ready split task (all direct children complete) behind a pending task. -/
def c4Tasks : List Task := [⟨"1", "t", .pending, none, none⟩, ⟨"2", "u", .split, none, none⟩,
  ⟨"2.1", "v", .complete, none, none⟩]

/-- Selector input whose only selectable task is a ready split. -/
def w4 : List Task := [⟨"3", "x", .complete, none, none⟩, ⟨"2", "u", .split, none, none⟩,
  ⟨"2.1", "v", .complete, none, none⟩]

/-- A root task with a two-level descendant subtree plus an unrelated root. -/
def w5 : List Task :=
  [⟨"1", "a", .complete, none, none⟩, ⟨"1.1", "b", .complete, some "old", none⟩,
   ⟨"1.1.1", "c", .complete, none, none⟩, ⟨"2", "d", .pending, none, none⟩]

/-- A completed non-root task next to an untouched sibling. -/
def w9 : List Task :=
  [⟨"1.1", "x", .complete, none, none⟩, ⟨"1.2", "y", .pending, none, none⟩]

lemma string_data_append (s t : String) : (s ++ t).data = s.data ++ t.data := rfl

lemma string_eq_of_data {s t : String} (h : s.data = t.data) : s = t := by
  cases s
  cases t
  exact congrArg String.mk h

/-- C1 counterexample: when every run_claude invocation fails with rate_limit,
run_claude_with_retry does return a rate_limit failure to its caller (after
the bounded schedule is exhausted), contrary to the indefinite-retry claim. -/
theorem run_claude_with_retry_returns_rate_limit :
    (run_claude_with_retry (fun _ => ⟨1, RATE_LIMIT, "429"⟩)).1.errorType = RATE_LIMIT ∧
    (run_claude_with_retry (fun _ => ⟨1, RATE_LIMIT, "429"⟩)).1.exitCode ≠ 0 := by
  decide

/-- C1 (amended): when every invocation fails with rate_limit, each failure is
followed by the fixed cooldown sleep and another attempt only while schedule
slots remain: exactly 5 invocations are made (the length of
`API_RETRY_DELAYS + [0]`), 5 cooldowns are slept, and the final rate_limit
failure is returned to the caller. -/
theorem rate_limit_retry_bounded (runs : Nat → RunResult)
    (h : ∀ i, i < 5 → (runs i).exitCode ≠ 0 ∧ (runs i).errorType = RATE_LIMIT) :
    run_claude_with_retry runs = (runs 4, 5, 5 * RATE_LIMIT_WAIT) := by
  have h0 := h 0 (by norm_num)
  have h1 := h 1 (by norm_num)
  have h2 := h 2 (by norm_num)
  have h3 := h 3 (by norm_num)
  have h4 := h 4 (by norm_num)
  simp [run_claude_with_retry, API_RETRY_DELAYS, retryGo, RATE_LIMIT_WAIT,
    h0.1, h0.2, h1.1, h1.2, h2.1, h2.2, h3.1, h3.2, h4.1, h4.2, RATE_LIMIT,
    TOKEN_LIMIT, API_ERROR, TIMEOUT]

/-- Witness for rate_limit_retry_bounded at a concrete oracle. -/
theorem rate_limit_retry_bounded_witness :
    run_claude_with_retry (fun _ => ⟨1, RATE_LIMIT, "429: rate limited"⟩) =
      (⟨1, RATE_LIMIT, "429: rate limited"⟩, 5, 5 * RATE_LIMIT_WAIT) :=
  rate_limit_retry_bounded (fun _ => ⟨1, RATE_LIMIT, "429: rate limited"⟩)
    (fun _ _ => ⟨by simp, rfl⟩)

/-- C2 evidence: with two pending tasks and every agent call failing with
token_limit, the run makes a second agent invocation after the first one
already returned token_limit — the controller does not halt the overall loop,
it only breaks the per-task iteration loop and then re-polls and re-claims. -/
theorem token_limit_does_not_halt_main_loop :
    (mainLoop c2Oracle "h" "d" 2 c2Tasks 0).2 = 2 ∧
    (c2Oracle 0).exitCode ≠ 0 ∧ (c2Oracle 0).errorType = TOKEN_LIMIT := by
  decide

/-- C8 evidence: a line holding the valid JSON value 42 — not an object — makes
read_tasks propagate AttributeError (raised by `task.keys()` inside
validate_task, caught nowhere) instead of being skipped with a warning. -/
theorem read_tasks_raises_on_nonobject_line :
    read_tasks [Line.value (JValue.jnum 42)] = Except.error PyErr.attributeError := rfl

/-- C10: archiving an id that is not in the live store is a no-op: the store
is returned unchanged and nothing is appended to the archive log. -/
theorem archive_task_tree_missing_id_noop (tasks : List Task)
    (taskId commitHash today : String) (h : ∀ t ∈ tasks, t.id ≠ taskId) :
    archive_task_tree tasks taskId commitHash today = (tasks, []) := by
  have hn : get_task_by_id tasks taskId = none := by
    rw [get_task_by_id, List.find?_eq_none]
    intro t ht
    simpa using h t ht
  simp [archive_task_tree, hn]

/-- Witness for archive_task_tree_missing_id_noop at a concrete store. -/
theorem archive_task_tree_missing_id_noop_witness :
    archive_task_tree [⟨"1", "a", .pending, none, none⟩] "7" "h" "d" =
      ([⟨"1", "a", .pending, none, none⟩], []) :=
  archive_task_tree_missing_id_noop _ _ _ _ (by decide)

lemma mem_of_listContainsSub {n h : List Char} (hn : listContainsSub n h = true)
    {c : Char} (hc : c ∈ n) : c ∈ h := by
  induction h with
  | nil =>
    rw [listContainsSub, List.isEmpty_iff] at hn
    subst hn
    simp at hc
  | cons a t ih =>
    rw [listContainsSub, Bool.or_eq_true] at hn
    rcases hn with hpre | htail
    · exact (List.isPrefixOf_iff_prefix.mp hpre).subset hc
    · exact List.mem_cons_of_mem a (ih htail)

lemma pyIn429_strip (s : String) (h : pyIn "429" s = true) : pyStripEmpty s = false := by
  have h4 : '4' ∈ s.data := mem_of_listContainsSub h (by decide)
  by_contra hc
  rw [Bool.not_eq_false, pyStripEmpty, List.all_eq_true] at hc
  have := hc '4' h4
  simp [pySpace] at this

/-- C7: detect_error_type always yields one of the six error types; the type is
none exactly on empty-or-whitespace text, and otherwise is chosen by first
match in the fixed order rate-limit terms, credit/quota terms, server-error
terms, timeout terms, with unknown when no guard matches; any text containing
"429" classifies as rate_limit, and the text "insufficient credit" classifies
as token_limit. -/
theorem detect_error_type_classification (s : String) :
    ((detect_error_type s).1 = NONE ∨ (detect_error_type s).1 = RATE_LIMIT ∨
      (detect_error_type s).1 = TOKEN_LIMIT ∨ (detect_error_type s).1 = API_ERROR ∨
      (detect_error_type s).1 = TIMEOUT ∨ (detect_error_type s).1 = UNKNOWN) ∧
    ((detect_error_type s).1 = NONE ↔ pyStripEmpty s = true) ∧
    ((detect_error_type s).1 = RATE_LIMIT ↔ pyStripEmpty s = false ∧ rlMatch s = true) ∧
    ((detect_error_type s).1 = TOKEN_LIMIT ↔
      pyStripEmpty s = false ∧ rlMatch s = false ∧ creditMatch s = true) ∧
    ((detect_error_type s).1 = API_ERROR ↔
      pyStripEmpty s = false ∧ rlMatch s = false ∧ creditMatch s = false ∧
        apiMatch s = true) ∧
    ((detect_error_type s).1 = TIMEOUT ↔
      pyStripEmpty s = false ∧ rlMatch s = false ∧ creditMatch s = false ∧
        apiMatch s = false ∧ timeoutMatch s = true) ∧
    ((detect_error_type s).1 = UNKNOWN ↔
      pyStripEmpty s = false ∧ rlMatch s = false ∧ creditMatch s = false ∧
        apiMatch s = false ∧ timeoutMatch s = false) ∧
    (∀ s2 : String, pyIn "429" s2 = true → (detect_error_type s2).1 = RATE_LIMIT) ∧
    (detect_error_type "insufficient credit").1 = TOKEN_LIMIT := by
  have h429 : ∀ s2 : String, pyIn "429" s2 = true → (detect_error_type s2).1 = RATE_LIMIT := by
    intro s2 h
    have hst := pyIn429_strip s2 h
    have hr : rlMatch s2 = true := by
      rw [rlMatch, Bool.or_eq_true]
      exact Or.inr h
    simp [detect_error_type, hst, hr]
  have hins : (detect_error_type "insufficient credit").1 = TOKEN_LIMIT := by decide
  refine ⟨?_, ?_, ?_, ?_, ?_, ?_, ?_, h429, hins⟩ <;>
    rw [detect_error_type] <;>
    rcases hb1 : pyStripEmpty s with _ | _ <;>
    rcases hb2 : rlMatch s with _ | _ <;>
    rcases hb3 : creditMatch s with _ | _ <;>
    rcases hb4 : apiMatch s with _ | _ <;>
    rcases hb5 : timeoutMatch s with _ | _ <;>
    simp [NONE, RATE_LIMIT, TOKEN_LIMIT, API_ERROR, TIMEOUT, UNKNOWN]

/-- Witness for detect_error_type_classification: the all-rate-limit clause
applied to a concrete stderr text containing 429. -/
theorem detect_error_type_classification_witness :
    (detect_error_type "HTTP 429 returned").1 = RATE_LIMIT :=
  (detect_error_type_classification "HTTP 429 returned").2.2.2.2.2.2.2.1
    "HTTP 429 returned" (by decide)

/-- C3: get_next_task returns an active task in work mode when one exists;
otherwise the first pending task in list order in work mode; otherwise a ready
split task in verify mode when one exists; otherwise (none, none).  In
particular active beats pending and pending beats split, regardless of list
position. -/
theorem get_next_task_priority (tasks : List Task) :
    ((∃ t ∈ tasks, t.status = Status.active) →
      ∃ t, t ∈ tasks ∧ t.status = Status.active ∧
        get_next_task tasks = (some t, some "work")) ∧
    ((¬ ∃ t ∈ tasks, t.status = Status.active) →
      ∀ p, tasks.find? (fun t => decide (t.status = Status.pending)) = some p →
        get_next_task tasks = (some p, some "work")) ∧
    ((¬ ∃ t ∈ tasks, t.status = Status.active) →
      (¬ ∃ t ∈ tasks, t.status = Status.pending) →
      (∃ t ∈ tasks, t.status = Status.split ∧ splitChildrenDone tasks t = true) →
      ∃ t, t ∈ tasks ∧ t.status = Status.split ∧ splitChildrenDone tasks t = true ∧
        get_next_task tasks = (some t, some "verify")) ∧
    ((¬ ∃ t ∈ tasks, t.status = Status.active) →
      (¬ ∃ t ∈ tasks, t.status = Status.pending) →
      (¬ ∃ t ∈ tasks, t.status = Status.split ∧ splitChildrenDone tasks t = true) →
      get_next_task tasks = (none, none)) := by
  refine ⟨?_, ?_, ?_, ?_⟩
  · rintro ⟨t, ht, hst⟩
    have hs : (tasks.find? (fun t => decide (t.status = Status.active))).isSome := by
      rw [List.find?_isSome]
      exact ⟨t, ht, by simp [hst]⟩
    obtain ⟨a, ha⟩ := Option.isSome_iff_exists.mp hs
    refine ⟨a, List.mem_of_find?_eq_some ha, by simpa using List.find?_some ha, ?_⟩
    simp [get_next_task, ha]
  · intro hno p hp
    have hnone : tasks.find? (fun t => decide (t.status = Status.active)) = none := by
      rw [List.find?_eq_none]
      intro x hx
      simp only [decide_eq_true_eq]
      exact fun h => hno ⟨x, hx, h⟩
    simp [get_next_task, hnone, hp]
  · intro hnoA hnoP ⟨t, ht, hst, hready⟩
    have hnA : tasks.find? (fun t => decide (t.status = Status.active)) = none := by
      rw [List.find?_eq_none]
      intro x hx
      simp only [decide_eq_true_eq]
      exact fun h => hnoA ⟨x, hx, h⟩
    have hnP : tasks.find? (fun t => decide (t.status = Status.pending)) = none := by
      rw [List.find?_eq_none]
      intro x hx
      simp only [decide_eq_true_eq]
      exact fun h => hnoP ⟨x, hx, h⟩
    have hs : (tasks.find?
        (fun t => decide (t.status = Status.split) && splitChildrenDone tasks t)).isSome := by
      rw [List.find?_isSome]
      exact ⟨t, ht, by simp [hst, hready]⟩
    obtain ⟨a, ha⟩ := Option.isSome_iff_exists.mp hs
    have hpa := List.find?_some ha
    rw [Bool.and_eq_true] at hpa
    refine ⟨a, List.mem_of_find?_eq_some ha, by simpa using hpa.1, hpa.2, ?_⟩
    simp [get_next_task, hnA, hnP, ha]
  · intro hnoA hnoP hnoS
    have hnA : tasks.find? (fun t => decide (t.status = Status.active)) = none := by
      rw [List.find?_eq_none]
      intro x hx
      simp only [decide_eq_true_eq]
      exact fun h => hnoA ⟨x, hx, h⟩
    have hnP : tasks.find? (fun t => decide (t.status = Status.pending)) = none := by
      rw [List.find?_eq_none]
      intro x hx
      simp only [decide_eq_true_eq]
      exact fun h => hnoP ⟨x, hx, h⟩
    have hnS : tasks.find?
        (fun t => decide (t.status = Status.split) && splitChildrenDone tasks t) = none := by
      rw [List.find?_eq_none]
      intro x hx
      rw [Bool.and_eq_true]
      rintro ⟨h1, h2⟩
      exact hnoS ⟨x, hx, by simpa using h1, h2⟩
    simp [get_next_task, hnA, hnP, hnS]

/-- Witness for get_next_task_priority: the four clauses at concrete stores. -/
theorem get_next_task_priority_witness :
    (∃ t, t ∈ w3a ∧ t.status = Status.active ∧ get_next_task w3a = (some t, some "work")) ∧
    get_next_task w3b = (some ⟨"1", "a", .pending, none, none⟩, some "work") ∧
    (∃ t, t ∈ w3c ∧ t.status = Status.split ∧ splitChildrenDone w3c t = true ∧
      get_next_task w3c = (some t, some "verify")) ∧
    get_next_task w3d = (none, none) :=
  ⟨(get_next_task_priority w3a).1 (by decide),
   (get_next_task_priority w3b).2.1 (by decide) _ (by decide),
   (get_next_task_priority w3c).2.2.1 (by decide) (by decide) (by decide),
   (get_next_task_priority w3d).2.2.2 (by decide) (by decide) (by decide)⟩

lemma dot_data : (".").data = ['.'] := rfl

lemma mem_get_children_iff (tasks : List Task) (pid : String) (t : Task) :
    t ∈ get_children tasks pid ↔
      t ∈ tasks ∧ ∃ seg : String, '.' ∉ seg.data ∧ t.id = pid ++ "." ++ seg := by
  rw [get_children, List.mem_filter]
  refine and_congr_right fun _ => ?_
  rw [Bool.and_eq_true]
  constructor
  · rintro ⟨hpre, hcnt⟩
    rw [pyStartsWith] at hpre
    obtain ⟨r, hr⟩ := List.isPrefixOf_iff_prefix.mp hpre
    have hdata : t.id.data = pid.data ++ '.' :: r := by
      rw [← hr, string_data_append, dot_data]
      simp
    have hcnt' : countDots t.id = countDots pid + 1 := by simpa using hcnt
    have hrcount : List.count '.' r = 0 := by
      rw [countDots, countDots, hdata] at hcnt'
      simp [List.count_append] at hcnt'
      omega
    refine ⟨⟨r⟩, ?_, ?_⟩
    · exact List.count_eq_zero.mp hrcount
    · refine string_eq_of_data ?_
      rw [hdata, string_data_append, string_data_append, dot_data]
      simp
  · rintro ⟨seg, hseg, heq⟩
    have hdata : t.id.data = pid.data ++ '.' :: seg.data := by
      rw [heq, string_data_append, string_data_append, dot_data]
      simp
    constructor
    · rw [pyStartsWith]
      refine List.isPrefixOf_iff_prefix.mpr ⟨seg.data, ?_⟩
      rw [hdata, string_data_append, dot_data]
      simp
    · have hc : countDots t.id = countDots pid + 1 := by
        rw [countDots, countDots, hdata]
        simp [List.count_append, List.count_eq_zero.mpr hseg]
      simpa using hc

/-- C4 counterexample: a split task whose direct children are nonempty and all
complete is not returned in verify mode when a pending task exists — the
literal "always returned" part of the claim fails. -/
theorem ready_split_not_selected_over_pending :
    (⟨"2", "u", .split, none, none⟩ : Task) ∈ c4Tasks ∧
    get_children c4Tasks "2" ≠ [] ∧
    (∀ c ∈ get_children c4Tasks "2", c.status = Status.complete) ∧
    get_next_task c4Tasks ≠ (some ⟨"2", "u", .split, none, none⟩, some "verify") := by
  decide

/-- C4 (amended): a task is returned in verify mode only if its status is
split, it has at least one direct child and every direct child is complete;
conversely, when the list holds no active and no pending task, the first split
task in list order whose direct children are nonempty and all complete is
returned in verify mode.  A direct child is a task whose id is the parent id
plus exactly one extra dot-segment, so the status of deeper descendants is
irrelevant. -/
theorem split_verify_readiness (tasks : List Task) :
    (∀ t m, get_next_task tasks = (some t, some m) → m = "verify" →
      t.status = Status.split ∧ get_children tasks t.id ≠ [] ∧
        ∀ c ∈ get_children tasks t.id, c.status = Status.complete) ∧
    ((¬ ∃ a ∈ tasks, a.status = Status.active) →
      (¬ ∃ p ∈ tasks, p.status = Status.pending) →
      ∀ t, tasks.find?
          (fun u => decide (u.status = Status.split) && splitChildrenDone tasks u) = some t →
        get_next_task tasks = (some t, some "verify")) ∧
    (∀ (pid : String) (t : Task), t ∈ get_children tasks pid ↔
      t ∈ tasks ∧ ∃ seg : String, '.' ∉ seg.data ∧ t.id = pid ++ "." ++ seg) := by
  refine ⟨?_, ?_, fun pid t => mem_get_children_iff tasks pid t⟩
  · intro t m hres hm
    subst hm
    rcases hA : tasks.find? (fun u => decide (u.status = Status.active)) with _ | a
    · rcases hP : tasks.find? (fun u => decide (u.status = Status.pending)) with _ | p
      · rcases hS : tasks.find?
            (fun u => decide (u.status = Status.split) && splitChildrenDone tasks u)
            with _ | sp
        · simp [get_next_task, hA, hP, hS] at hres
        · simp only [get_next_task, hA, hP, hS] at hres
          have heq : sp = t := by simpa using hres
          subst heq
          have hpa := List.find?_some hS
          rw [Bool.and_eq_true] at hpa
          obtain ⟨h1, h2⟩ := hpa
          simp only [splitChildrenDone, Bool.and_eq_true] at h2
          obtain ⟨hne, hall⟩ := h2
          refine ⟨by simpa using h1, ?_, ?_⟩
          · intro hnil
            rw [hnil] at hne
            simp at hne
          · intro c hc
            have := List.all_eq_true.mp hall c hc
            simpa using this
      · simp [get_next_task, hA, hP] at hres
    · simp [get_next_task, hA] at hres
  · intro hnoA hnoP t hfind
    have hnA : tasks.find? (fun u => decide (u.status = Status.active)) = none := by
      rw [List.find?_eq_none]
      intro x hx
      simp only [decide_eq_true_eq]
      exact fun h => hnoA ⟨x, hx, h⟩
    have hnP : tasks.find? (fun u => decide (u.status = Status.pending)) = none := by
      rw [List.find?_eq_none]
      intro x hx
      simp only [decide_eq_true_eq]
      exact fun h => hnoP ⟨x, hx, h⟩
    simp [get_next_task, hnA, hnP, hfind]

/-- Witness for split_verify_readiness: the ready split task of w4 is selected
in verify mode, and its direct child decomposes as parent id plus one
dot-segment. -/
theorem split_verify_readiness_witness :
    get_next_task w4 = (some ⟨"2", "u", .split, none, none⟩, some "verify") ∧
    ((⟨"2.1", "v", .complete, none, none⟩ : Task) ∈ get_children w4 "2") :=
  ⟨(split_verify_readiness w4).2.1 (by decide) (by decide) _ (by decide),
   ((split_verify_readiness w4).2.2 "2" ⟨"2.1", "v", .complete, none, none⟩).mpr
     ⟨by decide, "1", by decide, by decide⟩⟩

lemma not_self_dot_pre (s : String) : pyStartsWith s (s ++ ".") = false := by
  by_contra h
  rw [Bool.not_eq_false, pyStartsWith] at h
  obtain ⟨r, hr⟩ := List.isPrefixOf_iff_prefix.mp h
  have hlen := congrArg List.length hr
  rw [string_data_append, dot_data] at hlen
  simp [List.length_append] at hlen

/-- C5: archiving a present root task with unique ids removes the task and
every descendant (at any depth) from the live store, appends each of them to
the archive exactly once, and every archived record carries the commit hash
and the completion date. -/
theorem archive_task_tree_archives_subtree (tasks : List Task)
    (taskId commitHash today : String)
    (hroot : is_root_task taskId = true)
    (hnodup : (tasks.map fun t => t.id).Nodup)
    (hmem : ∃ t ∈ tasks, t.id = taskId) :
    (∀ t ∈ (archive_task_tree tasks taskId commitHash today).1,
       t.id ≠ taskId ∧ pyStartsWith t.id (taskId ++ ".") = false) ∧
    (∀ t ∈ tasks, (t.id = taskId ∨ pyStartsWith t.id (taskId ++ ".") = true) →
       (archive_task_tree tasks taskId commitHash today).2.count
         (stampDone t today commitHash) = 1) ∧
    (∀ a ∈ (archive_task_tree tasks taskId commitHash today).2,
       a.commit = some commitHash ∧ a.completed = some today) := by
  obtain ⟨t0, ht0, hid0⟩ := hmem
  have hs : (tasks.find? fun u => decide (u.id = taskId)).isSome := by
    rw [List.find?_isSome]
    exact ⟨t0, ht0, by simp [hid0]⟩
  obtain ⟨task, htask⟩ := Option.isSome_iff_exists.mp hs
  have htask' : get_task_by_id tasks taskId = some task := htask
  have htmem : task ∈ tasks := List.mem_of_find?_eq_some htask
  have htid : task.id = taskId := by simpa using List.find?_some htask
  have hdesc : ∀ d ∈ get_all_descendants tasks taskId,
      d ∈ tasks ∧ pyStartsWith d.id (taskId ++ ".") = true := by
    intro d hd
    rw [get_all_descendants, List.mem_filter] at hd
    exact hd
  have hidnotin : taskId ∉ (get_all_descendants tasks taskId).map fun u => u.id := by
    intro hin
    rw [List.mem_map] at hin
    obtain ⟨d, hd, hdid⟩ := hin
    have := (hdesc d hd).2
    rw [hdid] at this
    rw [not_self_dot_pre taskId] at this
    exact Bool.false_ne_true this
  have hidsnodup : ((task :: get_all_descendants tasks taskId).map fun u => u.id).Nodup := by
    rw [List.map_cons, List.nodup_cons, htid]
    refine ⟨hidnotin, ?_⟩
    have hsub : ((get_all_descendants tasks taskId).map fun u => u.id).Sublist
        (tasks.map fun u => u.id) := (List.filter_sublist tasks).map _
    exact hnodup.sublist hsub
  have harchnodup :
      ((task :: get_all_descendants tasks taskId).map
        fun t => stampDone t today commitHash).Nodup := by
    have hproj : (((task :: get_all_descendants tasks taskId).map
        fun t => stampDone t today commitHash).map fun a => a.id) =
        ((task :: get_all_descendants tasks taskId).map fun u => u.id) := by
      rw [List.map_map]
      rfl
    refine List.Nodup.of_map (fun a => a.id) ?_
    rw [hproj]
    exact hidsnodup
  have harch : archive_task_tree tasks taskId commitHash today =
      (tasks.filter fun t =>
         !decide (t.id ∈ (task :: get_all_descendants tasks taskId).map fun u => u.id),
       (task :: get_all_descendants tasks taskId).map
         fun t => stampDone t today commitHash) := by
    simp only [archive_task_tree, htask']
  rw [harch]
  refine ⟨?_, ?_, ?_⟩
  · intro t htr
    rw [List.mem_filter] at htr
    obtain ⟨htm, hb⟩ := htr
    have hnotin : t.id ∉ (task :: get_all_descendants tasks taskId).map fun u => u.id := by
      simpa using hb
    rw [List.map_cons, List.mem_cons, htid] at hnotin
    push_neg at hnotin
    refine ⟨hnotin.1, ?_⟩
    by_contra hpre
    rw [Bool.not_eq_false] at hpre
    have : t ∈ get_all_descendants tasks taskId := by
      rw [get_all_descendants, List.mem_filter]
      exact ⟨htm, hpre⟩
    exact hnotin.2 (List.mem_map_of_mem _ this)
  · intro t ht hcase
    have hmem2 : t ∈ task :: get_all_descendants tasks taskId := by
      rcases hcase with heq | hpre
      · have : t = task := by
          refine List.inj_on_of_nodup_map hnodup ht htmem ?_
          rw [heq, htid]
        rw [this]
        exact List.mem_cons_self task _
      · refine List.mem_cons_of_mem task ?_
        rw [get_all_descendants, List.mem_filter]
        exact ⟨ht, hpre⟩
    exact List.count_eq_one_of_mem harchnodup
      (List.mem_map_of_mem (fun u => stampDone u today commitHash) hmem2)
  · intro a ha
    rw [List.mem_map] at ha
    obtain ⟨u, hu, hstamp⟩ := ha
    rw [← hstamp]
    exact ⟨rfl, rfl⟩

/-- Witness for archive_task_tree_archives_subtree: archiving root "1" of w5
clears "1", "1.1" and "1.1.1" from the live store and appends stamped records
exactly once each. -/
theorem archive_task_tree_archives_subtree_witness :
    (∀ t ∈ (archive_task_tree w5 "1" "abc" "2026-10-12").1,
       t.id ≠ "1" ∧ pyStartsWith t.id ("1" ++ ".") = false) ∧
    (∀ t ∈ w5, (t.id = "1" ∨ pyStartsWith t.id ("1" ++ ".") = true) →
       (archive_task_tree w5 "1" "abc" "2026-10-12").2.count
         (stampDone t "2026-10-12" "abc") = 1) ∧
    (∀ a ∈ (archive_task_tree w5 "1" "abc" "2026-10-12").2,
       a.commit = some "abc" ∧ a.completed = some "2026-10-12") :=
  archive_task_tree_archives_subtree w5 "1" "abc" "2026-10-12"
    (by decide) (by decide) (by decide)

lemma validate_encode (t : Task) : validate_task (encodeTask t) = .ok () := by
  rcases t with ⟨i, ti, st, c, d⟩
  cases st <;> cases c <;> cases d <;> rfl

lemma read_tasks_go_write (tasks : List Task) (acc : List JValue) :
    read_tasks_go (write_tasks tasks) acc = .ok (acc ++ tasks.map encodeTask) := by
  induction tasks generalizing acc with
  | nil => simp [write_tasks, read_tasks_go]
  | cons t ts ih =>
    have hv := validate_encode t
    simp only [write_tasks, List.map_cons, read_tasks_go, hv]
    have hts : List.map (fun u => Line.value (encodeTask u)) ts = write_tasks ts := rfl
    rw [hts, ih]
    simp

/-- C6: writing any sequence of valid task records with write_tasks and
reading it back with read_tasks yields exactly the written sequence — same
order, same records, no error — and the encoding loses no field, since each
record decodes back to the identical task. -/
theorem tasks_roundtrip (tasks : List Task) :
    read_tasks (write_tasks tasks) = .ok (tasks.map encodeTask) ∧
    ∀ t : Task, decodeTask (encodeTask t) = some t := by
  constructor
  · have := read_tasks_go_write tasks []
    simpa [read_tasks] using this
  · intro t
    rcases t with ⟨i, ti, st, c, d⟩
    cases st <;> cases c <;> cases d <;> rfl

lemma set_commit_spec (tasks : List Task) (taskId h : String)
    (hfind : ∃ cur, get_task_by_id tasks taskId = some cur) :
    ∃ i : Fin tasks.length, (tasks.get i).id = taskId ∧
      set_commit tasks taskId h = tasks.set i.val (withCommit (tasks.get i) h) := by
  induction tasks with
  | nil =>
    obtain ⟨cur, hcur⟩ := hfind
    simp [get_task_by_id] at hcur
  | cons a ts ih =>
    by_cases ha : a.id = taskId
    · refine ⟨⟨0, by simp⟩, by simpa using ha, ?_⟩
      simp [set_commit, ha, List.set]
    · obtain ⟨cur, hcur⟩ := hfind
      have hcur' : get_task_by_id ts taskId = some cur := by
        rw [get_task_by_id] at hcur ⊢
        rw [List.find?_cons_of_neg] at hcur
        · exact hcur
        · simp [ha]
      obtain ⟨i, h1, h2⟩ := ih ⟨cur, hcur'⟩
      refine ⟨⟨i.val + 1, Nat.succ_lt_succ i.isLt⟩, ?_, ?_⟩
      · simpa using h1
      · simp only [set_commit, ha, if_neg, List.set]
        rw [h2]
        simp

/-- C9: finalizing a completed non-root task only sets the commit field of the
first record with that id: the store keeps its length, the record at position
i becomes the same record with commit set to the merge hash, and every other
position is unchanged — no task or sibling is removed. -/
theorem nonroot_finalize_frame (tasks : List Task) (taskId commitHash today : String)
    (hnr : is_root_task taskId = false)
    (hcur : ∃ cur, get_task_by_id tasks taskId = some cur ∧ cur.status = Status.complete) :
    ∃ i : Fin tasks.length,
      (tasks.get i).id = taskId ∧
      finalize tasks taskId commitHash today =
        tasks.set i.val (withCommit (tasks.get i) commitHash) ∧
      (finalize tasks taskId commitHash today).length = tasks.length ∧
      ∀ j : Nat, j ≠ i.val →
        (finalize tasks taskId commitHash today)[j]? = tasks[j]? := by
  obtain ⟨cur, hcur, hst⟩ := hcur
  have hfin : finalize tasks taskId commitHash today = set_commit tasks taskId commitHash := by
    simp [finalize, hcur, hst, hnr]
  obtain ⟨i, h1, h2⟩ := set_commit_spec tasks taskId commitHash ⟨cur, hcur⟩
  refine ⟨i, h1, by rw [hfin, h2], by rw [hfin, h2]; simp, ?_⟩
  intro j hj
  rw [hfin, h2]
  exact List.getElem?_set_ne (fun heq => hj heq.symm)

/-- Witness for nonroot_finalize_frame: completing non-root "1.1" in w9 only
attaches the commit hash to its record. -/
theorem nonroot_finalize_frame_witness :
    ∃ i : Fin w9.length,
      (w9.get i).id = "1.1" ∧
      finalize w9 "1.1" "abc" "2026-10-12" =
        w9.set i.val (withCommit (w9.get i) "abc") ∧
      (finalize w9 "1.1" "abc" "2026-10-12").length = w9.length ∧
      ∀ j : Nat, j ≠ i.val →
        (finalize w9 "1.1" "abc" "2026-10-12")[j]? = w9[j]? :=
  nonroot_finalize_frame w9 "1.1" "abc" "2026-10-12" (by decide)
    ⟨⟨"1.1", "x", .complete, none, none⟩, by decide, rfl⟩

end Willie
